import Mathlib

/-!
Verification development for the bigearth-processor repository.

The Go sources are shallowly embedded below: pure computations become Lean
functions, filesystem/raster side effects are modelled by oracle parameters
(`Except`-valued readers) or by returning a description of the files that
would be produced.  Machine integers are modelled as `Nat`/`Int`; the only
place overflow could matter (16-bit pixel composition) carries an explicit
`% 65536`.
-/

namespace BigEarth

/-! ### String / path helpers (Go `path` and `strings` packages, `fmt` padding) -/

/-- Go `path.Ext`: the suffix beginning at the final dot in the final
slash-separated element of the path; empty if there is no dot. -/
def pathExt (s : String) : String :=
  let revName := s.data.reverse.takeWhile (fun c => c ≠ '/')
  let beforeDot := revName.takeWhile (fun c => c ≠ '.')
  if beforeDot.length = revName.length then ""
  else ⟨'.' :: beforeDot.reverse⟩

/-- Go `strings.TrimSuffix`: drop `suffix` from the end of `s` when present. -/
def trimSuffix (s suffix : String) : String :=
  if suffix.data.isSuffixOf s.data then
    ⟨s.data.take (s.data.length - suffix.data.length)⟩
  else s

/-- Go `path.Join` on already-clean paths (no `.`/`..`/double-slash
components): `Join(a, b) = Clean(a + "/" + b)`, which for such inputs is
plain `/`-concatenation with empty components skipped. -/
def pathJoin (a b : String) : String :=
  if a = "" then b else if b = "" then a else a ++ "/" ++ b

/-- Go `fmt.Sprintf("%02d", n)` for a nonnegative value: left-pad the decimal
representation with `'0'` to width 2 (numbers of three or more digits are
printed in full, exactly as `%02d` does). -/
def pad2 (n : Nat) : String :=
  if n < 10 then "0" ++ Nat.repr n else Nat.repr n

/-- Decimal rendering of a natural number, dividing by 10 from the most
significant digit; reference definition used to reason about `Nat.repr`. -/
def decRepr (n : Nat) : List Char :=
  if _h : n < 10 then [Nat.digitChar n]
  else decRepr (n / 10) ++ [Nat.digitChar (n % 10)]
  decreasing_by
    have h0 : 0 < n := by omega
    exact Nat.div_lt_self h0 (by omega)

/-- Parse a list of decimal digit characters, most significant first;
insensitive to leading zeros. -/
def parseDec (l : List Char) : Nat :=
  l.foldl (fun a c => 10 * a + (c.toNat - 48)) 0

/-! ### Band splitter (src/model/tile.go, `Tile.SplitMultiBand`, lines 184-220) -/

/-- Shallow embedding of `Tile.SplitMultiBand` (src/model/tile.go:184-220),
restricted to its pure observable behaviour: the chosen output subfolder and,
for each retained band in loop order, the native band index together with the
output file name passed to `GDALTranslate`.  `rasterCount` stands for
`dataset.RasterCount()`; the Go loop runs `band := 1; band <= RasterCount`.
Directory creation and the raster writes are side effects described by the
returned value. -/
def splitMultiBand (tileNameFull : String) (outputFolder : String) (label : String)
    (bandMapping : Nat → Option String) (rasterCount : Nat) :
    String × List (Nat × String) :=
  let tileName := trimSuffix tileNameFull (pathExt tileNameFull)
  let folderName := if label = "" then pathJoin outputFolder tileName
    else pathJoin outputFolder label
  let files := (List.range rasterCount).filterMap (fun i =>
    let band := i + 1
    match bandMapping band with
    | some mappedBand =>
        if mappedBand = "" then none
        else some (band, tileName ++ "_B" ++ mappedBand ++ ".tiff")
    | none => some (band, tileName ++ "_B" ++ pad2 band ++ ".tiff"))
  (folderName, files)

/-! ### Metrics aggregator (src/cmd/metric/main.go, `outputMetrics`, lines 146-228)

The Go code iterates over the `pixelValueCounts` map; a map is embedded as the
list of its `(pixelValue, count)` entries in some iteration order. -/

/-- Clip a pixel value to the report's upper limit
(`if pv > upperLimitPixel { pv = upperLimitPixel }`, metric/main.go:167-169). -/
def clipPV (upperLimit pv : Nat) : Nat :=
  if pv > upperLimit then upperLimit else pv

/-- The min/max scan of `outputMetrics` (metric/main.go:147-156): one pass over
the raw (unclipped) pixel values, starting from `maxPV = 0`, `minPV = 65535`.
Returns `(maxPV, minPV)` before the clipping of `maxPV`. -/
def minMaxRaw (entries : List (Nat × Nat)) : Nat × Nat :=
  entries.foldl (fun mm e =>
    (if e.1 > mm.1 then e.1 else mm.1, if e.1 < mm.2 then e.1 else mm.2))
    (0, 65535)

/-- The `maxPV` actually printed: the raw maximum clipped to the upper limit
(`if maxPV > upperLimitPixel { maxPV = upperLimitPixel }`, metric/main.go:158-160). -/
def reportedMax (entries : List (Nat × Nat)) (upperLimit : Nat) : Nat :=
  let m := (minMaxRaw entries).1
  if m > upperLimit then upperLimit else m

/-- The `minPV` actually printed (never clipped). -/
def reportedMin (entries : List (Nat × Nat)) : Nat :=
  (minMaxRaw entries).2

/-- Length of the `pixelCounts` slice: `(((maxPV+1)/20)+1)*20`
(metric/main.go:161), with the already-clipped `maxPV`. -/
def bucketLen (entries : List (Nat × Nat)) (upperLimit : Nat) : Nat :=
  (((reportedMax entries upperLimit + 1) / 20) + 1) * 20

/-- The mutable accumulator of the loop at metric/main.go:166-178. -/
structure AccumState where
  pixelCounts : List Nat
  totalPixelCount : Nat
  totalPixelValue : Int
  mostCommonPixelValue : Nat
  mostCommonPixelCount : Nat
deriving Repr, DecidableEq

/-- One iteration of the loop at metric/main.go:166-178 for a map entry
`(pv, c)`: clip `pv`, bump the bucket, the totals, and the running mode. -/
def accumStep (upperLimit : Nat) (st : AccumState) (e : Nat × Nat) : AccumState :=
  let pv := clipPV upperLimit e.1
  { pixelCounts := st.pixelCounts.set pv (st.pixelCounts.getD pv 0 + e.2)
    totalPixelCount := st.totalPixelCount + e.2
    totalPixelValue := st.totalPixelValue + (e.2 : Int) * (pv : Int)
    mostCommonPixelValue :=
      if st.mostCommonPixelCount < e.2 then pv else st.mostCommonPixelValue
    mostCommonPixelCount :=
      if st.mostCommonPixelCount < e.2 then e.2 else st.mostCommonPixelCount }

/-- The full accumulation loop of `outputMetrics` (metric/main.go:161-178). -/
def accumulate (entries : List (Nat × Nat)) (upperLimit : Nat) : AccumState :=
  entries.foldl (accumStep upperLimit)
    { pixelCounts := List.replicate (bucketLen entries upperLimit) 0
      totalPixelCount := 0
      totalPixelValue := 0
      mostCommonPixelValue := 0
      mostCommonPixelCount := 0 }

/-- The running-mode strand of one loop iteration (the
`mostCommonPixelValue`/`mostCommonPixelCount` updates, metric/main.go:174-177),
on the pair `(mostCommonPixelValue, mostCommonPixelCount)`. -/
def mcStep (upperLimit : Nat) (st : Nat × Nat) (e : Nat × Nat) : Nat × Nat :=
  let pv := clipPV upperLimit e.1
  if st.2 < e.2 then (pv, e.2) else st

/-- Just the running-mode strand of the whole loop. -/
def mostCommonScan (upperLimit : Nat) (entries : List (Nat × Nat)) : Nat × Nat :=
  entries.foldl (mcStep upperLimit) (0, 0)

/-- Total multiplicity that a given (post-clipping) pixel value receives in
the clipped histogram: the sum of the raw counts of all raw values that clip
to it. -/
def clippedCount (entries : List (Nat × Nat)) (upperLimit v : Nat) : Nat :=
  (entries.filter (fun e => clipPV upperLimit e.1 = v)).foldl (fun a e => a + e.2) 0

/-- The median scan of `outputMetrics` (metric/main.go:180-198).  The Go code
walks `pixelCounts` in chunks of 20 (`i += 20`, inner `j < 20`) guarded by
`medianValue < 0`, which visits every index `0, 1, 2, ...` in ascending order
exactly once until the median is fixed; the flat recursion below performs the
same scan.  `float64` arithmetic on these integer-and-half values is exact and
is embedded as `ℚ`. -/
def medianGo : ℚ → Nat → List Nat → ℚ
  | _, _, [] => -1
  | medianCount, idx, c :: cs =>
    let medianCount' := medianCount - (c : ℚ)
    if medianCount' ≤ 0 then (idx : ℚ)
    else if medianCount' < 1 then (idx : ℚ) + 0.5
    else medianGo medianCount' (idx + 1) cs

/-- `medianValue` as computed by metric/main.go:180-198 from the bucket list
and `totalPixelCount` (`medianCount := float64(totalPixelCount) / 2.0`). -/
def medianValue (pixelCounts : List Nat) (totalPixelCount : Nat) : ℚ :=
  medianGo ((totalPixelCount : ℚ) / 2) 0 pixelCounts

/-- The median that `outputMetrics` reports for a given accumulated
pixel-count table and upper limit. -/
def outputMetricsMedian (entries : List (Nat × Nat)) (upperLimit : Nat) : ℚ :=
  let st := accumulate entries upperLimit
  medianValue st.pixelCounts st.totalPixelCount

/-- Running remainder of the median scan after bucket `k` has been
subtracted: `totalCount/2 - (counts of buckets 0..k)`. -/
def remAfter (totalPixelCount : Nat) (pixelCounts : List Nat) (k : Nat) : ℚ :=
  (totalPixelCount : ℚ) / 2 - ((pixelCounts.take (k + 1)).map (fun c : Nat => (c : ℚ))).sum

/-! ### Tile metadata loading (src/model/metadata.go and src/model/tile.go)

Filesystem reads are oracle parameters: `readDir` is the result of
`ioutil.ReadDir` (the file names in the tile folder), `readFile f` the result
of `ioutil.ReadFile f`, `unmarshal raw` the result of `json.Unmarshal`, and
`imgLoad p` the result of `Image.Load` on path `p`. -/

/-- The `TileMetadata` struct (src/model/metadata.go:11-14); `labels` is empty
until `LoadMetadata` succeeds. -/
structure TileMetadataState where
  filename : String
  labels : List String
deriving Repr, DecidableEq

/-- `TileMetadata.LoadMetadata` (src/model/metadata.go:22-37): read the file,
unmarshal it, store the labels; each failure is returned wrapped. -/
def tmLoadMetadata (readFile : String → Except String String)
    (unmarshal : String → Except String (List String))
    (tm : TileMetadataState) : Except String TileMetadataState :=
  match readFile tm.filename with
  | .error e => .error ("unable to read metadata from '" ++ tm.filename ++ "': " ++ e)
  | .ok raw =>
    match unmarshal raw with
    | .error e => .error ("unable to unmarshal metadata from  '" ++ tm.filename ++ "': " ++ e)
    | .ok ls => .ok { tm with labels := ls }

/-- `Tile.LoadMetadata` (src/model/tile.go:64-85): fail if the folder cannot
be listed; otherwise scan for the first `.json` file and, when found, build a
`TileMetadata` and call its `LoadMetadata`, whose return value the Go code
discards (`t.Metadata.LoadMetadata()` at tile.go:79), so on failure the
metadata stays with empty labels.  Returns the final `t.Metadata`. -/
def tileLoadMetadata (readDir : Except String (List String))
    (readFile : String → Except String String)
    (unmarshal : String → Except String (List String))
    (tileFolder : String) : Except String (Option TileMetadataState) :=
  match readDir with
  | .error e => .error ("unable to read contents of '" ++ tileFolder ++ "': " ++ e)
  | .ok files =>
    match files.find? (fun f => pathExt f == ".json") with
    | none => .ok none
    | some f =>
      let tm : TileMetadataState := { filename := pathJoin tileFolder f, labels := [] }
      match tmLoadMetadata readFile unmarshal tm with
      | .ok tm' => .ok (some tm')
      | .error _ => .ok (some tm)

/-- The fields of `Tile` mutated by `LoadFiles` that the claims observe. -/
structure TileState where
  images : List String
  metadata : Option TileMetadataState
deriving Repr, DecidableEq

/-- The loop body sequence of `Tile.LoadFiles` (src/model/tile.go:103-117):
`.json` files (re)load metadata (inner error again discarded, no `break`),
any other file is loaded as an image, propagating image-load failures. -/
def loadFilesGo (imgLoad : String → Except String Unit)
    (readFile : String → Except String String)
    (unmarshal : String → Except String (List String))
    (tileFolder : String) : List String → TileState → Except String TileState
  | [], st => .ok st
  | f :: fs, st =>
    if pathExt f == ".json" then
      let tm : TileMetadataState := { filename := pathJoin tileFolder f, labels := [] }
      let tm' := match tmLoadMetadata readFile unmarshal tm with
        | .ok t => t
        | .error _ => tm
      loadFilesGo imgLoad readFile unmarshal tileFolder fs { st with metadata := some tm' }
    else
      let imagePath := pathJoin tileFolder f
      match imgLoad imagePath with
      | .error e => .error ("unable to load image from '" ++ imagePath ++ "': " ++ e)
      | .ok _ => loadFilesGo imgLoad readFile unmarshal tileFolder fs
          { st with images := st.images ++ [imagePath] }

/-- `Tile.LoadFiles` for a directory-variant tile (src/model/tile.go:87-120,
`MultiBand = false` branch). -/
def tileLoadFiles (readDir : Except String (List String))
    (imgLoad : String → Except String Unit)
    (readFile : String → Except String String)
    (unmarshal : String → Except String (List String))
    (tileFolder : String) : Except String TileState :=
  match readDir with
  | .error e => .error ("unable to read contents of '" ++ tileFolder ++ "': " ++ e)
  | .ok files => loadFilesGo imgLoad readFile unmarshal tileFolder files
      { images := [], metadata := none }

/-- The label-counting step of the metrics loop (src/cmd/metric/main.go:122-127):
`for _, label := range tile.Metadata.Labels { ... }`.  `tile.Metadata` is a
pointer; when it is `nil` the selector `tile.Metadata.Labels` dereferences a
nil pointer and the Go program panics, modelled as `none` (no safe branch
exists in the source). -/
def labelCountStep (metadata : Option TileMetadataState)
    (labelCounts labelSingleCounts : String → Nat) :
    Option ((String → Nat) × (String → Nat)) :=
  match metadata with
  | none => none
  | some m => some
      (m.labels.foldl (fun lc label => fun s => if s = label then lc s + 1 else lc s) labelCounts,
       if m.labels.length = 1 then
         m.labels.foldl (fun lc label => fun s => if s = label then lc s + 1 else lc s)
           labelSingleCounts
       else labelSingleCounts)

/-! ### Pixel decoding (src/model/tile.go, `Image.Load`, lines 134-158) -/

/-- The pixel-construction loop of `Image.Load` (src/model/tile.go:151-154):
`pixels[x] = uint16(pixelsRaw[x*2])<<8 | uint16(pixelsRaw[x*2+1])`.
`pixelsRaw` is the decoded raster's backing byte buffer (`imGray.Pix`, entries
`< 256`); the `uint16` arithmetic is embedded with an explicit `% 65536`. -/
def imageLoadPixels (pixelsRaw : List Nat) (sizeX sizeY : Nat) : List Nat :=
  (List.range (sizeX * sizeY)).map (fun x =>
    ((pixelsRaw.getD (x * 2) 0) <<< 8 ||| pixelsRaw.getD (x * 2 + 1) 0) % 65536)

/-! ### Band-mapping construction (src/cmd/split/main.go, `createBandMapping`,
lines 207-238) -/

/-- How a `createBandMapping` call can fail to return a mapping: a failed
`strconv.Atoi` on a band-mapping token (split/main.go:214-217), a failed
`strconv.Atoi` on a drop token (split/main.go:224-227), or the untrapped
index-out-of-range panic at `mapping[1]` (split/main.go:219) when a
band-mapping token has no `:`. -/
inductive BandMapErr
  | parseMapping
  | parseDrop
  | panicIndex
deriving Repr, DecidableEq

/-- Accumulate decimal digits; fail on any non-digit character. -/
def parseDigitsAux (acc : Nat) : List Char → Option Nat
  | [] => some acc
  | c :: cs => if c.isDigit then parseDigitsAux (10 * acc + (c.toNat - 48)) cs else none

/-- Parse one or more decimal digits. -/
def parseDigits : List Char → Option Nat
  | [] => none
  | l => parseDigitsAux 0 l

/-- Go `strconv.Atoi`: an optional sign followed by at least one decimal
digit; rejects the empty string and any other malformed token.  (The int
bit-size overflow check is irrelevant for the inputs considered here.) -/
def atoi (s : String) : Option Int :=
  match s.data with
  | '-' :: rest => (parseDigits rest).map (fun n => -(n : Int))
  | '+' :: rest => (parseDigits rest).map (fun n => (n : Int))
  | l => (parseDigits l).map (fun n => (n : Int))

/-- Go `strings.Split` on a single-character separator, at the character-list
level: splitting the empty list yields the single empty token, and each
separator occurrence starts a new token. -/
def splitChars (sep : Char) : List Char → List (List Char)
  | [] => [[]]
  | c :: cs =>
    match splitChars sep cs with
    | [] => [[]]
    | t :: ts => if c = sep then [] :: t :: ts else (c :: t) :: ts

/-- Go `strings.Split(s, sep)` for the single-character separators used by
`createBandMapping` (`","` and `":"`); `strings.Split("", sep) = [""]`. -/
def goSplit (s : String) (sep : Char) : List String :=
  (splitChars sep s.data).map (fun l => ⟨l⟩)

/-- Go map insertion `bandMapping[k] = v`. -/
def insertBM (m : Int → Option String) (k : Int) (v : String) : Int → Option String :=
  fun n => if n = k then some v else m n

/-- One iteration of the band-mapping loop (split/main.go:212-220):
`mapping := strings.Split(mr, ":")`, parse `mapping[0]`, store `mapping[1]`
(which panics when the token has no colon). -/
def parseMapToken (bm : Int → Option String) (mr : String) :
    Except BandMapErr (Int → Option String) :=
  let mapping := goSplit mr ':'
  match atoi (mapping.getD 0 "") with
  | none => .error .parseMapping
  | some old =>
    if h : 1 < mapping.length then .ok (insertBM bm old (mapping.get ⟨1, h⟩))
    else .error .panicIndex

/-- One iteration of the drop-bands loop (split/main.go:223-230). -/
def parseDropToken (bm : Int → Option String) (b : String) :
    Except BandMapErr (Int → Option String) :=
  match atoi b with
  | none => .error .parseDrop
  | some parsed => .ok (insertBM bm parsed "")

/-- Sequential fold of a token list with early exit on error (the Go `for`
loops with `return nil, err`). -/
def foldTokens (f : (Int → Option String) → String → Except BandMapErr (Int → Option String)) :
    (Int → Option String) → List String → Except BandMapErr (Int → Option String)
  | bm, [] => .ok bm
  | bm, t :: ts =>
    match f bm t with
    | .error e => .error e
    | .ok bm' => foldTokens f bm' ts

/-- `createBandMapping` (src/cmd/split/main.go:207-238): split the mapping
specification on commas and process each token, then split the drop
specification on commas and process each token.  `strings.Split` of the empty
string yields the single token `""`. -/
def createBandMapping (bandsToDrop bandMappingRaw : String) :
    Except BandMapErr (Int → Option String) :=
  match foldTokens parseMapToken (fun _ => none) (goSplit bandMappingRaw ',') with
  | .error e => .error e
  | .ok bm => foldTokens parseDropToken bm (goSplit bandsToDrop ',')

end BigEarth

namespace BigEarth

/-! ### Decimal-representation lemmas (for filename uniqueness) -/

theorem decRepr_lt (n : Nat) (h : n < 10) : decRepr n = [Nat.digitChar n] := by
  rw [decRepr]
  simp [h]

theorem decRepr_ge (n : Nat) (h : ¬ n < 10) :
    decRepr n = decRepr (n / 10) ++ [Nat.digitChar (n % 10)] := by
  conv_lhs => rw [decRepr]
  simp [h]

theorem toDigitsCore_eq_decRepr :
    ∀ (f n : Nat) (acc : List Char), 0 < f → n < 10 ^ f →
      Nat.toDigitsCore 10 f n acc = decRepr n ++ acc := by
  intro f
  induction f with
  | zero => omega
  | succ f ih =>
    intro n acc _ hlt
    by_cases hten : n / 10 = 0
    · have hn10 : n < 10 := by omega
      rw [decRepr_lt n hn10]
      simp [Nat.toDigitsCore, hten, Nat.mod_eq_of_lt hn10]
    · have hf : 0 < f := by
        by_contra hf0
        have : f = 0 := by omega
        subst this
        simp at hlt
        omega
      have hdivlt : n / 10 < 10 ^ f := by
        have h1 : n < 10 ^ f * 10 := by
          have h2 := hlt
          rw [pow_succ] at h2
          exact h2
        have h3 : n < 10 * 10 ^ f := by omega
        exact Nat.div_lt_of_lt_mul h3
      have hn10 : ¬ n < 10 := by
        intro hcon
        exact hten (Nat.div_eq_of_lt hcon)
      rw [decRepr_ge n hn10]
      simp only [Nat.toDigitsCore, hten, if_false]
      rw [ih (n / 10) (Nat.digitChar (n % 10) :: acc) hf hdivlt]
      simp

theorem repr_data (n : Nat) : (Nat.repr n).data = decRepr n := by
  have hpow : n < 10 ^ (n + 1) := by
    calc n < 10 ^ n := Nat.lt_pow_self (by omega) n
    _ ≤ 10 ^ (n + 1) := Nat.pow_le_pow_right (by omega) (by omega)
  have := toDigitsCore_eq_decRepr (n + 1) n [] (by omega) hpow
  simp only [Nat.repr, Nat.toDigits, this, List.append_nil]
  rfl

theorem parseDec_append_digit (l : List Char) (c : Char) :
    parseDec (l ++ [c]) = 10 * parseDec l + (c.toNat - 48) := by
  simp [parseDec, List.foldl_append]

theorem digitChar_toNat (d : Nat) (h : d < 10) : (Nat.digitChar d).toNat - 48 = d := by
  interval_cases d <;> rfl

theorem parseDec_decRepr (n : Nat) : parseDec (decRepr n) = n := by
  induction n using Nat.strong_induction_on with
  | _ n ih =>
    by_cases h : n < 10
    · rw [decRepr_lt n h]
      simpa [parseDec] using digitChar_toNat n h
    · rw [decRepr_ge n h, parseDec_append_digit,
        ih (n / 10) (Nat.div_lt_self (by omega) (by omega)),
        digitChar_toNat (n % 10) (Nat.mod_lt n (by omega))]
      omega

theorem parseDec_cons_zero (l : List Char) : parseDec ('0' :: l) = parseDec l := by
  simp [parseDec]

theorem string_data_append (s t : String) : (s ++ t).data = s.data ++ t.data := rfl

theorem parseDec_pad2 (n : Nat) : parseDec (pad2 n).data = n := by
  by_cases h : n < 10
  · have : (pad2 n).data = '0' :: (Nat.repr n).data := by
      simp only [pad2, if_pos h, string_data_append]
      rfl
    rw [this, parseDec_cons_zero, repr_data, parseDec_decRepr]
  · have : (pad2 n).data = (Nat.repr n).data := by
      simp [pad2, h]
    rw [this, repr_data, parseDec_decRepr]

theorem pad2_injective : Function.Injective pad2 := by
  intro a b hab
  have : parseDec (pad2 a).data = parseDec (pad2 b).data := by rw [hab]
  rwa [parseDec_pad2, parseDec_pad2] at this

/-- The file-name rendering of `SplitMultiBand` for kept-by-index bands is
injective in the band index. -/
theorem splitName_injective (base : String) :
    Function.Injective (fun k => base ++ "_B" ++ pad2 k ++ ".tiff") := by
  intro a b h
  have hd := congrArg String.data h
  simp only [string_data_append, List.append_assoc] at hd
  have h1 := List.append_cancel_left hd
  have h2 := List.append_cancel_left h1
  have h3 := List.append_cancel_right h2
  have : parseDec (pad2 a).data = parseDec (pad2 b).data := by rw [h3]
  rwa [parseDec_pad2, parseDec_pad2] at this

/-- `filterMap` with an everywhere-`some` function is a `map`. -/
theorem filterMap_always_some {α β : Type} (f : α → β) (l : List α) :
    l.filterMap (fun a => some (f a)) = l.map f := by
  induction l with
  | nil => rfl
  | cons a l ih => simp [List.filterMap_cons, ih]

/-- A `getD` over a list of bytes stays below 256. -/
theorem getD_lt_256 (l : List Nat) (h : ∀ b ∈ l, b < 256) (j : Nat) :
    l.getD j 0 < 256 := by
  by_cases hj : j < l.length
  · rw [List.getD_eq_getElem l 0 hj]
    exact h _ (List.getElem_mem hj)
  · rw [List.getD_eq_default l 0 (by omega)]
    omega

/-! ### C2: big-endian 16-bit pixel composition -/

/-- C2 (confirmed): for every successfully decoded single-band raster, pixel
`i` of the loaded image equals `(buffer[2*i] <<< 8) ||| buffer[2*i+1]` of the
decoded raster's backing byte buffer, for every `i < width*height` —
big-endian 16-bit composition regardless of the decoder's native layout. -/
theorem C2_imageLoad_bigEndian (pixelsRaw : List Nat) (sizeX sizeY i : Nat)
    (hi : i < sizeX * sizeY)
    (hbytes : ∀ b ∈ pixelsRaw, b < 256) :
    (imageLoadPixels pixelsRaw sizeX sizeY).getD i 0 =
      (pixelsRaw.getD (2 * i) 0) <<< 8 ||| pixelsRaw.getD (2 * i + 1) 0 := by
  have hlen : i < ((List.range (sizeX * sizeY)).map (fun x =>
      ((pixelsRaw.getD (x * 2) 0) <<< 8 ||| pixelsRaw.getD (x * 2 + 1) 0) % 65536)).length := by
    simpa using hi
  rw [imageLoadPixels, List.getD_eq_getElem _ 0 hlen]
  simp only [List.getElem_map, List.getElem_range]
  have hb0 : pixelsRaw.getD (i * 2) 0 < 256 := getD_lt_256 _ hbytes _
  have hb1 : pixelsRaw.getD (i * 2 + 1) 0 < 256 := getD_lt_256 _ hbytes _
  have hshift : (pixelsRaw.getD (i * 2) 0) <<< 8 < 2 ^ 16 := by
    rw [Nat.shiftLeft_eq]
    have h28 : (2 : Nat) ^ 8 = 256 := by norm_num
    have h216 : (2 : Nat) ^ 16 = 65536 := by norm_num
    rw [h28, h216]
    omega
  have hor : (pixelsRaw.getD (i * 2) 0) <<< 8 ||| pixelsRaw.getD (i * 2 + 1) 0 < 2 ^ 16 :=
    Nat.or_lt_two_pow hshift (by omega)
  have h216 : (2 : Nat) ^ 16 = 65536 := by norm_num
  rw [h216] at hor
  have hmul : i * 2 = 2 * i := by ring
  rw [Nat.mod_eq_of_lt hor, hmul]

/-- Witness for C2 at a concrete decoded buffer. -/
theorem C2_imageLoad_bigEndian_witness :
    (imageLoadPixels [1, 2, 255, 255] 2 1).getD 1 0 =
      (([1, 2, 255, 255] : List Nat).getD 2 0) <<< 8 ||| ([1, 2, 255, 255] : List Nat).getD 3 0 :=
  C2_imageLoad_bigEndian [1, 2, 255, 255] 2 1 1 (by decide) (by decide)

/-! ### C6: dropped bands -/

/-- C6 (counterexample to the claim as stated): with the mapping `{2 ↦ ""}`
and source tile `T_B02.tiff`, band 2 is dropped, yet the produced file for
band 1 — `T_B02_B01.tiff` — does contain the substring `_B02` (it comes from
the tile's own base name). -/
theorem C6_counterexample :
    (fun n => if n = 2 then some "" else none : Nat → Option String) 2 = some "" ∧
    ((splitMultiBand "T_B02.tiff" "dest" "" (fun n => if n = 2 then some "" else none) 2).2.any
      (fun p => decide (List.IsInfix "_B02".data p.2.data))) = true := by
  constructor
  · rfl
  · decide

/-- C6 (amended): for every band mapping sending some index `k` to the empty
replacement string, splitting any source tile with that mapping produces no
output file for the dropped band `k` (no produced file originates from band
`k`); the stronger guarantee that no produced file name contains the
substring `_B<k>` does not hold in general, since the tile's base name or
another band's replacement tag may contain it. -/
theorem C6_dropped_band_no_file (tileNameFull dest label : String)
    (bandMapping : Nat → Option String) (rasterCount k : Nat)
    (hk : bandMapping k = some "") :
    ∀ p ∈ (splitMultiBand tileNameFull dest label bandMapping rasterCount).2, p.1 ≠ k := by
  intro p hp hpk
  simp only [splitMultiBand, List.mem_filterMap, List.mem_range] at hp
  obtain ⟨i, _, hf⟩ := hp
  cases hcase : bandMapping (i + 1) with
  | none =>
    rw [hcase] at hf
    simp only [Option.some.injEq] at hf
    have hband : p.1 = i + 1 := by rw [← hf]
    rw [hpk] at hband
    rw [← hband] at hcase
    rw [hcase] at hk
    exact Option.noConfusion hk
  | some m =>
    rw [hcase] at hf
    by_cases hm : m = ""
    · simp [hm] at hf
    · simp only [hm, if_false, Option.some.injEq] at hf
      have hband : p.1 = i + 1 := by rw [← hf]
      rw [hpk] at hband
      rw [← hband] at hcase
      rw [hcase] at hk
      simp only [Option.some.injEq] at hk
      exact hm hk

/-- Witness for C6 at a concrete mapping and tile. -/
theorem C6_dropped_band_no_file_witness :
    ((2 : Nat), "T_B02.tiff") ∉
      (splitMultiBand "T.tiff" "dest" "" (fun n => if n = 2 then some "" else none) 3).2 :=
  fun h => C6_dropped_band_no_file "T.tiff" "dest" "" _ 3 2 rfl _ h rfl

/-! ### C7: empty mapping keeps every band under its padded index -/

/-- C7 (confirmed): with an empty band mapping and an `N`-band raster,
`SplitMultiBand` produces exactly `N` output files, the bands processed are
exactly `1..N` in order, the file of band `k` is tagged with the zero-padded
index `k`, and the produced file names are pairwise distinct. -/
theorem C7_empty_mapping (tileNameFull dest label : String) (rasterCount : Nat) :
    (splitMultiBand tileNameFull dest label (fun _ => none) rasterCount).2.length = rasterCount ∧
    ((splitMultiBand tileNameFull dest label (fun _ => none) rasterCount).2.map Prod.fst =
      (List.range rasterCount).map (fun i => i + 1)) ∧
    (∀ p ∈ (splitMultiBand tileNameFull dest label (fun _ => none) rasterCount).2,
      p.2 = trimSuffix tileNameFull (pathExt tileNameFull) ++ "_B" ++ pad2 p.1 ++ ".tiff") ∧
    ((splitMultiBand tileNameFull dest label (fun _ => none) rasterCount).2.map Prod.snd).Nodup := by
  have hform : (splitMultiBand tileNameFull dest label (fun _ => none) rasterCount).2 =
      (List.range rasterCount).map (fun i =>
        (i + 1, trimSuffix tileNameFull (pathExt tileNameFull) ++ "_B" ++ pad2 (i + 1) ++ ".tiff")) := by
    simp only [splitMultiBand]
    exact filterMap_always_some _ _
  refine ⟨?_, ?_, ?_, ?_⟩
  · rw [hform]; simp
  · rw [hform, List.map_map]; rfl
  · intro p hp
    rw [hform] at hp
    simp only [List.mem_map, List.mem_range] at hp
    obtain ⟨i, _, hi⟩ := hp
    rw [← hi]
  · rw [hform, List.map_map]
    have : (Prod.snd ∘ fun i =>
        (i + 1, trimSuffix tileNameFull (pathExt tileNameFull) ++ "_B" ++ pad2 (i + 1) ++ ".tiff")) =
        (fun k => trimSuffix tileNameFull (pathExt tileNameFull) ++ "_B" ++ pad2 k ++ ".tiff") ∘
          (fun i => i + 1) := rfl
    rw [this, ← List.map_map]
    exact List.Nodup.map
      (splitName_injective (trimSuffix tileNameFull (pathExt tileNameFull)))
      (List.Nodup.map (fun a b => by omega) (List.nodup_range rasterCount))

/-- Witness for C7 at a concrete tile and band count. -/
theorem C7_empty_mapping_witness :
    (splitMultiBand "T1.tiff" "dest" "" (fun _ => none) 3).2.length = 3 :=
  (C7_empty_mapping "T1.tiff" "dest" "" 3).1

/-! ### C4: reported min/max pixel values -/

theorem if_gt_eq_max (a b : Nat) : (if b > a then b else a) = max a b := by
  rw [Nat.max_def]
  split <;> split <;> omega

theorem if_lt_eq_min (a b : Nat) : (if b < a then b else a) = min a b := by
  rw [Nat.min_def]
  split <;> split <;> omega

/-- The raw min/max loop is the `max`/`min` fold over the raw pixel values. -/
theorem minMaxRaw_fold : ∀ (l : List (Nat × Nat)) (mm : Nat × Nat),
    l.foldl (fun mm e =>
      (if e.1 > mm.1 then e.1 else mm.1, if e.1 < mm.2 then e.1 else mm.2)) mm =
      ((l.map Prod.fst).foldl max mm.1, (l.map Prod.fst).foldl min mm.2) := by
  intro l
  induction l with
  | nil => intro mm; rfl
  | cons e l ih =>
    intro mm
    simp only [List.foldl_cons, List.map_cons]
    rw [ih, if_gt_eq_max, if_lt_eq_min]

/-- C4 (counterexample to the claim as stated): with a single pixel of raw
value 50000 the raw maximum is 50000, but the printed "max pixel value" is
clipped to the accumulator's upper limit (10000 resp. 40000), so it is not
the raw unclipped maximum. -/
theorem C4_counterexample :
    reportedMax [(50000, 1)] 10000 = 10000 ∧
    reportedMax [(50000, 1)] 40000 = 40000 ∧
    (minMaxRaw [(50000, 1)]).1 = 50000 ∧
    reportedMax [(50000, 1)] 10000 ≠ (minMaxRaw [(50000, 1)]).1 ∧
    reportedMax [(50000, 1)] 40000 ≠ (minMaxRaw [(50000, 1)]).1 := by
  refine ⟨rfl, rfl, rfl, ?_, ?_⟩ <;> decide

/-- C4 (amended): the printed "min pixel value" is the raw, unclipped minimum
of all pixel values ever seen (from initial 65535), independent of the upper
limit; the printed "max pixel value" is the raw maximum (from initial 0)
clipped to the accumulator's upper limit, `min upperLimit rawMax`, and it
equals the raw maximum only when the raw maximum does not exceed the limit. -/
theorem C4_minmax (entries : List (Nat × Nat)) (upperLimit : Nat) :
    reportedMin entries = (entries.map Prod.fst).foldl min 65535 ∧
    reportedMax entries upperLimit = min upperLimit ((entries.map Prod.fst).foldl max 0) ∧
    ((entries.map Prod.fst).foldl max 0 ≤ upperLimit →
      reportedMax entries upperLimit = (entries.map Prod.fst).foldl max 0) := by
  have h := minMaxRaw_fold entries (0, 65535)
  refine ⟨?_, ?_, ?_⟩
  · rw [reportedMin, minMaxRaw, h]
  · rw [reportedMax, minMaxRaw, h]
    simp only
    rw [Nat.min_def]
    split <;> split <;> omega
  · intro hle
    rw [reportedMax, minMaxRaw, h]
    simp only
    split <;> omega

/-- Witness for C4's amended statement at a concrete table. -/
theorem C4_minmax_witness :
    reportedMax [(5, 1)] 10000 = (([(5, 1)] : List (Nat × Nat)).map Prod.fst).foldl max 0 :=
  (C4_minmax [(5, 1)] 10000).2.2 (by decide)

/-! ### C8: error behaviour of Tile.LoadMetadata -/

/-- C8 (counterexample to the claim as stated): with a readable folder that
contains a descriptor `m.json` whose file read fails, the inner
`TileMetadata.LoadMetadata` returns an error, yet `Tile.LoadMetadata` returns
success — the failure is discarded (tile.go:79), not surfaced. -/
theorem C8_counterexample :
    (∃ e, tmLoadMetadata (fun _ => .error "io failure") (fun _ => .ok [])
        ⟨pathJoin "tile" "m.json", []⟩ = .error e) ∧
    tileLoadMetadata (.ok ["m.json"]) (fun _ => .error "io failure") (fun _ => .ok []) "tile" =
      .ok (some ⟨"tile/m.json", []⟩) := by
  constructor
  · exact ⟨"unable to read metadata from 'tile/m.json': io failure", rfl⟩
  · rfl

/-- C8 (amended): `Tile.LoadMetadata` returns an error exactly when the
tile's storage directory cannot be read; it returns no error (leaving the
metadata absent) when no descriptor file is found; and when a descriptor file
is found, failures to read or parse it are discarded — `LoadMetadata` still
returns success and the metadata keeps its empty label list. -/
theorem C8_loadMetadata (readDir : Except String (List String))
    (readFile : String → Except String String)
    (unmarshal : String → Except String (List String)) (tileFolder : String) :
    ((∃ e, readDir = .error e) ↔
      (∃ e', tileLoadMetadata readDir readFile unmarshal tileFolder = .error e')) ∧
    (∀ files, readDir = .ok files →
      files.find? (fun f => pathExt f == ".json") = none →
      tileLoadMetadata readDir readFile unmarshal tileFolder = .ok none) ∧
    (∀ files f e, readDir = .ok files →
      files.find? (fun g => pathExt g == ".json") = some f →
      tmLoadMetadata readFile unmarshal ⟨pathJoin tileFolder f, []⟩ = .error e →
      tileLoadMetadata readDir readFile unmarshal tileFolder =
        .ok (some ⟨pathJoin tileFolder f, []⟩)) := by
  refine ⟨⟨?_, ?_⟩, ?_, ?_⟩
  · rintro ⟨e, rfl⟩
    exact ⟨_, rfl⟩
  · rintro ⟨e', herr⟩
    cases hrd : readDir with
    | error e => exact ⟨e, rfl⟩
    | ok files =>
      rw [hrd] at herr
      rw [tileLoadMetadata] at herr
      cases hfind : files.find? (fun f => pathExt f == ".json") with
      | none =>
        rw [hfind] at herr
        exact Except.noConfusion herr
      | some f =>
        rw [hfind] at herr
        cases htm : tmLoadMetadata readFile unmarshal ⟨pathJoin tileFolder f, []⟩ with
        | ok tm' =>
          simp only [htm] at herr
          exact Except.noConfusion herr
        | error e =>
          simp only [htm] at herr
          exact Except.noConfusion herr
  · rintro files rfl hfind
    rw [tileLoadMetadata, hfind]
  · rintro files f e rfl hfind htm
    rw [tileLoadMetadata, hfind]
    simp only [htm]

/-- Witness for C8's amended statement at a concrete folder listing. -/
theorem C8_loadMetadata_witness :
    tileLoadMetadata (.ok ["a.tiff"]) (fun _ => .ok "") (fun _ => .ok []) "t" = .ok none :=
  (C8_loadMetadata (.ok ["a.tiff"]) (fun _ => .ok "") (fun _ => .ok []) "t").2.1
    ["a.tiff"] rfl (by decide)

/-! ### C9: nil-metadata dereference in the metrics loop -/

/-- Processing a listing with no `.json` descriptor leaves `Metadata`
untouched while every image loads. -/
theorem loadFilesGo_no_json (imgLoad : String → Except String Unit)
    (readFile : String → Except String String)
    (unmarshal : String → Except String (List String)) (tileFolder : String) :
    ∀ (files : List String) (st : TileState),
    (∀ f ∈ files, pathExt f ≠ ".json") →
    (∀ p, imgLoad p = .ok ()) →
    ∃ st', loadFilesGo imgLoad readFile unmarshal tileFolder files st = .ok st' ∧
      st'.metadata = st.metadata := by
  intro files
  induction files with
  | nil => intro st _ _; exact ⟨st, rfl, rfl⟩
  | cons f fs ih =>
    intro st hnj hload
    have hf : pathExt f ≠ ".json" := hnj f (by simp)
    have hbeq : (pathExt f == ".json") = false := by
      simpa using hf
    rw [loadFilesGo, hbeq]
    simp only [Bool.false_eq_true, if_false]
    rw [hload (pathJoin tileFolder f)]
    exact ih _ (fun g hg => hnj g (by simp [hg])) hload

/-- C9 (confirmed): for a directory-variant tile whose folder holds no
`.json` descriptor (and whose images all decode), `Tile.LoadMetadata` and
`Tile.LoadFiles` both succeed with the metadata pointer still nil, and the
label-counting step of the metrics loop then dereferences that nil pointer
(`tile.Metadata.Labels`, metric/main.go:122) — there is no safe branch for
absent metadata. -/
theorem C9_nil_metadata_deref (files : List String)
    (imgLoad : String → Except String Unit)
    (readFile : String → Except String String)
    (unmarshal : String → Except String (List String)) (tileFolder : String)
    (hnojson : ∀ f ∈ files, pathExt f ≠ ".json")
    (hload : ∀ p, imgLoad p = .ok ()) :
    tileLoadMetadata (.ok files) readFile unmarshal tileFolder = .ok none ∧
    ∃ st, tileLoadFiles (.ok files) imgLoad readFile unmarshal tileFolder = .ok st ∧
      st.metadata = none ∧
      ∀ lc lsc, labelCountStep st.metadata lc lsc = none := by
  constructor
  · rw [tileLoadMetadata]
    have hfind : files.find? (fun f => pathExt f == ".json") = none := by
      rw [List.find?_eq_none]
      intro x hx
      simpa using hnojson x hx
    rw [hfind]
  · obtain ⟨st', h1, h2⟩ := loadFilesGo_no_json imgLoad readFile unmarshal tileFolder
      files ⟨[], none⟩ hnojson hload
    refine ⟨st', ?_, h2, ?_⟩
    · rw [tileLoadFiles]
      exact h1
    · intro lc lsc
      rw [h2]
      rfl

/-- Witness for C9 at a concrete descriptor-less folder. -/
theorem C9_nil_metadata_deref_witness :
    tileLoadMetadata (.ok ["img.tiff"]) (fun _ => .ok "x") (fun _ => .ok []) "t" = .ok none ∧
    labelCountStep none (fun _ => 0) (fun _ => 0) = none := by
  obtain ⟨hmeta, st, h1, h2, h3⟩ := C9_nil_metadata_deref ["img.tiff"] (fun _ => .ok ())
    (fun _ => .ok "x") (fun _ => .ok []) "t" (by decide) (fun _ => rfl)
  refine ⟨hmeta, ?_⟩
  have := h3 (fun _ => 0) (fun _ => 0)
  rwa [h2] at this

/-! ### C10: createBandMapping on empty specification strings -/

theorem splitChars_ne_nil (sep : Char) (l : List Char) : splitChars sep l ≠ [] := by
  cases l with
  | nil => simp [splitChars]
  | cons c cs =>
    rw [splitChars]
    cases splitChars sep cs with
    | nil => simp
    | cons t ts =>
      by_cases h : c = sep <;> simp [h]

theorem goSplit_ne_nil (s : String) (sep : Char) : goSplit s sep ≠ [] := by
  rw [goSplit]
  intro h
  exact splitChars_ne_nil sep s.data (List.map_eq_nil_iff.mp h)

theorem foldTokens_cons
    (f : (Int → Option String) → String → Except BandMapErr (Int → Option String))
    (bm : Int → Option String) (t : String) (ts : List String) :
    foldTokens f bm (t :: ts) =
      match f bm t with
      | .error e => .error e
      | .ok bm' => foldTokens f bm' ts := rfl

theorem foldTokens_nil
    (f : (Int → Option String) → String → Except BandMapErr (Int → Option String))
    (bm : Int → Option String) :
    foldTokens f bm [] = .ok bm := rfl

/-- A nonempty, fully-successful run of the drop-bands loop always leaves at
least one band marked dropped (every drop token inserts the empty string). -/
theorem foldTokens_drop_some : ∀ (ts : List String) (bm0 bm : Int → Option String),
    ts ≠ [] → foldTokens parseDropToken bm0 ts = .ok bm → ∃ k, bm k = some "" := by
  intro ts
  induction ts with
  | nil => intro bm0 bm h; exact absurd rfl h
  | cons t ts ih =>
    intro bm0 bm _ hfold
    rw [foldTokens_cons] at hfold
    cases hatoi : atoi t with
    | none =>
      simp only [parseDropToken, hatoi] at hfold
      exact Except.noConfusion hfold
    | some p =>
      simp only [parseDropToken, hatoi] at hfold
      cases ts with
      | nil =>
        rw [foldTokens_nil] at hfold
        have hbm : insertBM bm0 p "" = bm := by
          injection hfold
        refine ⟨p, ?_⟩
        rw [← hbm, insertBM]
        simp
      | cons t' ts' =>
        exact ih _ _ (by simp) hfold

/-- C10 (counterexample to the claim as stated): with an empty drop string
but the colon-free band-mapping token `"1"`, the code parses `1`
successfully and then indexes `mapping[1]` on a one-element slice — an
index-out-of-range panic (split/main.go:219), not a returned parse error. -/
theorem C10_counterexample :
    createBandMapping "" "1" = .error .panicIndex ∧
    BandMapErr.panicIndex ≠ BandMapErr.parseMapping ∧
    BandMapErr.panicIndex ≠ BandMapErr.parseDrop := by
  refine ⟨rfl, ?_, ?_⟩ <;> decide

/-- C10 (amended): `createBandMapping` never returns a band mapping when
either specification string is empty — splitting the empty string on commas
yields one empty token whose integer parse fails, so the call returns a
parse error, except that an earlier colon-free band-mapping token whose head
parses as an integer panics first; in particular both flag defaults `""`
yield a parse error, and any successful call returns a mapping with at least
one entry, so an empty BandMapping is unreachable through the split command's
flags. -/
theorem C10_empty_spec_never_ok :
    (∀ bandsToDrop bandMappingRaw, (bandsToDrop = "" ∨ bandMappingRaw = "") →
      ∀ bm, createBandMapping bandsToDrop bandMappingRaw ≠ .ok bm) ∧
    createBandMapping "" "" = .error .parseMapping ∧
    (∀ bandsToDrop bandMappingRaw bm,
      createBandMapping bandsToDrop bandMappingRaw = .ok bm → ∃ k, bm k = some "") := by
  refine ⟨?_, rfl, ?_⟩
  · rintro d m (rfl | rfl) bm hok
    · rw [createBandMapping] at hok
      cases hfold : foldTokens parseMapToken (fun _ => none) (goSplit m ',') with
      | error e =>
        simp only [hfold] at hok
        exact Except.noConfusion hok
      | ok bm' =>
        simp only [hfold] at hok
        have hdrop : foldTokens parseDropToken bm' (goSplit "" ',') =
            .error .parseDrop := rfl
        rw [hdrop] at hok
        exact Except.noConfusion hok
    · rw [createBandMapping] at hok
      have hmap : foldTokens parseMapToken (fun _ => none) (goSplit "" ',') =
          .error .parseMapping := rfl
      rw [hmap] at hok
      exact Except.noConfusion hok
  · intro d m bm hok
    rw [createBandMapping] at hok
    cases hfold : foldTokens parseMapToken (fun _ => none) (goSplit m ',') with
    | error e =>
      simp only [hfold] at hok
      exact Except.noConfusion hok
    | ok bm' =>
      simp only [hfold] at hok
      exact foldTokens_drop_some _ bm' bm (goSplit_ne_nil d ',') hok

/-- Witness for C10's amended statement at the default flag values. -/
theorem C10_empty_spec_never_ok_witness :
    createBandMapping "" "" ≠ .ok (fun _ => none) :=
  C10_empty_spec_never_ok.1 "" "" (Or.inl rfl) (fun _ => none)

/-! ### C5: the reported most common pixel value -/

theorem le_foldl_max_self : ∀ (l : List Nat) (b : Nat), b ≤ l.foldl max b := by
  intro l
  induction l with
  | nil => intro b; exact Nat.le_refl b
  | cons c l ih =>
    intro b
    calc b ≤ max b c := Nat.le_max_left b c
    _ ≤ l.foldl max (max b c) := ih (max b c)

theorem le_foldl_max_of_mem : ∀ (l : List Nat) (b c : Nat), c ∈ l → c ≤ l.foldl max b := by
  intro l
  induction l with
  | nil => intro b c hc; exact absurd hc (List.not_mem_nil c)
  | cons d l ih =>
    intro b c hc
    rcases List.mem_cons.mp hc with rfl | hc
    · calc c ≤ max b c := Nat.le_max_right b c
      _ ≤ l.foldl max (max b c) := le_foldl_max_self l (max b c)
    · exact ih (max b d) c hc

theorem foldl_max_const : ∀ (l : List Nat) (b : Nat), (∀ c ∈ l, c ≤ b) → l.foldl max b = b := by
  intro l
  induction l with
  | nil => intro b _; rfl
  | cons c l ih =>
    intro b hb
    have hc : c ≤ b := hb c (by simp)
    have : max b c = b := Nat.max_eq_left hc
    rw [List.foldl_cons, this]
    exact ih b (fun d hd => hb d (by simp [hd]))

theorem mcStep_snd (u : Nat) (st e : Nat × Nat) : (mcStep u st e).2 = max st.2 e.2 := by
  rw [mcStep, Nat.max_def]
  split <;> split <;> omega

theorem mcStep_of_le (u : Nat) (st e : Nat × Nat) (h : ¬ st.2 < e.2) : mcStep u st e = st := by
  rw [mcStep]
  simp [h]

theorem mcStep_of_lt (u : Nat) (st e : Nat × Nat) (h : st.2 < e.2) :
    mcStep u st e = (clipPV u e.1, e.2) := by
  rw [mcStep]
  simp [h]

/-- Full characterization of the running-mode scan from an arbitrary start
state: the final count is the max of all counts, an un-beaten start state is
returned unchanged, and otherwise the reported value is the clipped value of
the first entry attaining the final count (strict `<` update means
first-seen wins). -/
theorem mcScan_spec (u : Nat) : ∀ (l : List (Nat × Nat)) (st : Nat × Nat),
    (l.foldl (mcStep u) st).2 = (l.map Prod.snd).foldl max st.2 ∧
    ((∀ c ∈ l.map Prod.snd, c ≤ st.2) → l.foldl (mcStep u) st = st) ∧
    ((∃ c ∈ l.map Prod.snd, st.2 < c) →
      ∃ i, ∃ h : i < l.length,
        (l.get ⟨i, h⟩).2 = (l.foldl (mcStep u) st).2 ∧
        (l.foldl (mcStep u) st).1 = clipPV u (l.get ⟨i, h⟩).1 ∧
        ∀ j, j < i → (l.getD j (0, 0)).2 < (l.foldl (mcStep u) st).2) := by
  intro l
  induction l with
  | nil =>
    intro st
    refine ⟨rfl, fun _ => rfl, ?_⟩
    rintro ⟨c, hc, _⟩
    exact absurd hc (List.not_mem_nil c)
  | cons e l ih =>
    intro st
    obtain ⟨ih1, ih2, ih3⟩ := ih (mcStep u st e)
    have hsnd : (mcStep u st e).2 = max st.2 e.2 := mcStep_snd u st e
    refine ⟨?_, ?_, ?_⟩
    · rw [List.foldl_cons, List.map_cons, List.foldl_cons, ih1, hsnd]
    · intro hall
      have he : e.2 ≤ st.2 := hall e.2 (by simp)
      have hst : mcStep u st e = st := mcStep_of_le u st e (by omega)
      rw [List.foldl_cons, hst]
      rw [hst] at ih2
      exact ih2 (fun c hc => hall c (by simp [hc]))
    · rintro ⟨c, hc, hstc⟩
      rw [List.foldl_cons]
      by_cases hlt : st.2 < e.2
      · have hst : mcStep u st e = (clipPV u e.1, e.2) := mcStep_of_lt u st e hlt
        by_cases hall : ∀ d ∈ l.map Prod.snd, d ≤ e.2
        · have hrest : l.foldl (mcStep u) (mcStep u st e) = (clipPV u e.1, e.2) := by
            rw [hst]
            rw [hst] at ih2
            exact ih2 (by simpa using hall)
          refine ⟨0, by simp, ?_, ?_, ?_⟩
          · rw [hrest]; rfl
          · rw [hrest]; rfl
          · intro j hj; omega
        · push_neg at hall
          obtain ⟨d, hd, hde⟩ := hall
          have hex : ∃ d ∈ l.map Prod.snd, (mcStep u st e).2 < d := by
            refine ⟨d, hd, ?_⟩
            rw [hsnd]
            omega
          obtain ⟨i, hi, h1, h2, h3⟩ := ih3 hex
          refine ⟨i + 1, by simpa using hi, ?_, ?_, ?_⟩
          · simpa using h1
          · simpa using h2
          · intro j hj
            cases j with
            | zero =>
              simp only [List.getD_cons_zero]
              rw [ih1]
              have hdmax : d ≤ (l.map Prod.snd).foldl max (mcStep u st e).2 :=
                le_foldl_max_of_mem _ _ d hd
              rw [hsnd] at hdmax ⊢
              omega
            | succ j =>
              have := h3 j (by omega)
              simpa using this
      · have hst : mcStep u st e = st := mcStep_of_le u st e hlt
        have hcl : c ∈ l.map Prod.snd := by
          rw [List.map_cons] at hc
          rcases List.mem_cons.mp hc with hceq | hcl
          · exact absurd (hceq ▸ hstc) hlt
          · exact hcl
        have hex : ∃ d ∈ l.map Prod.snd, (mcStep u st e).2 < d := by
          refine ⟨c, hcl, ?_⟩
          rw [hst]
          exact hstc
        obtain ⟨i, hi, h1, h2, h3⟩ := ih3 hex
        refine ⟨i + 1, by simpa using hi, ?_, ?_, ?_⟩
        · simpa using h1
        · simpa using h2
        · intro j hj
          cases j with
          | zero =>
            simp only [List.getD_cons_zero]
            rw [ih1]
            have hcmax : c ≤ (l.map Prod.snd).foldl max (mcStep u st e).2 :=
              le_foldl_max_of_mem _ _ c hcl
            omega
          | succ j =>
            have := h3 j (by omega)
            simpa using this

/-- The running-mode fields of the full accumulator loop coincide with the
stand-alone running-mode scan. -/
theorem accumulate_mostCommon_proj (u : Nat) :
    ∀ (l : List (Nat × Nat)) (st : AccumState),
    ((l.foldl (accumStep u) st).mostCommonPixelValue,
      (l.foldl (accumStep u) st).mostCommonPixelCount) =
      l.foldl (mcStep u) (st.mostCommonPixelValue, st.mostCommonPixelCount) := by
  intro l
  induction l with
  | nil => intro st; rfl
  | cons e l ih =>
    intro st
    rw [List.foldl_cons, List.foldl_cons, ih]
    congr 1
    by_cases h : st.mostCommonPixelCount < e.2 <;>
      simp [accumStep, mcStep, h]

/-- C5 (counterexample to the claim as stated): with upper limit 10000 and
raw table {5 ↦ 4, 10001 ↦ 3, 10002 ↦ 3}, the post-clipping histogram gives
value 10000 a combined count of 6, yet the code compares each raw entry's
count separately and reports (5, 4): the reported pair is not the
post-clipping value with maximal occurrence count. -/
theorem C5_counterexample :
    mostCommonScan 10000 [(5, 4), (10001, 3), (10002, 3)] = (5, 4) ∧
    clippedCount [(5, 4), (10001, 3), (10002, 3)] 10000 10000 = 6 ∧
    (mostCommonScan 10000 [(5, 4), (10001, 3), (10002, 3)]).2 < 6 := by
  refine ⟨?_, ?_, ?_⟩ <;> decide

/-- C5 (amended): the pair reported by `outputMetrics` equals the result of
the running-max scan over the raw map entries: the reported count is the
maximal raw per-value count (not the post-clipping combined count), and the
reported value is the clipped pixel value of the first entry (in map
iteration order) attaining that maximal raw count — strict-inequality
updates make ties break in favour of the first-seen entry. -/
theorem C5_mostCommon (entries : List (Nat × Nat)) (upperLimit : Nat) :
    ((accumulate entries upperLimit).mostCommonPixelValue,
      (accumulate entries upperLimit).mostCommonPixelCount) =
      mostCommonScan upperLimit entries ∧
    (mostCommonScan upperLimit entries).2 = (entries.map Prod.snd).foldl max 0 ∧
    ((entries.map Prod.snd).foldl max 0 = 0 →
      mostCommonScan upperLimit entries = (0, 0)) ∧
    ((entries.map Prod.snd).foldl max 0 ≠ 0 →
      ∃ i, ∃ h : i < entries.length,
        (entries.get ⟨i, h⟩).2 = (entries.map Prod.snd).foldl max 0 ∧
        (mostCommonScan upperLimit entries).1 = clipPV upperLimit (entries.get ⟨i, h⟩).1 ∧
        ∀ j, j < i → (entries.getD j (0, 0)).2 < (entries.map Prod.snd).foldl max 0) := by
  obtain ⟨h1, h2, h3⟩ := mcScan_spec upperLimit entries (0, 0)
  refine ⟨accumulate_mostCommon_proj upperLimit entries _, h1, ?_, ?_⟩
  · intro hM
    apply h2
    intro c hc
    have := le_foldl_max_of_mem (entries.map Prod.snd) 0 c hc
    omega
  · intro hM
    have hex : ∃ c ∈ entries.map Prod.snd, (0 : Nat) < c := by
      by_contra hno
      push_neg at hno
      exact hM (foldl_max_const _ 0 (fun c hc => by have := hno c hc; omega))
    obtain ⟨i, hi, hc1, hc2, hc3⟩ := h3 hex
    rw [h1] at hc1 hc3
    exact ⟨i, hi, hc1, hc2, hc3⟩

/-- Witness for C5's amended statement at a concrete (empty) table. -/
theorem C5_mostCommon_witness :
    mostCommonScan 10000 ([] : List (Nat × Nat)) = (0, 0) :=
  (C5_mostCommon [] 10000).2.2.1 rfl

/-! ### C3: the bucket-scan median rule -/

theorem medianGo_cons (rem : ℚ) (idx : Nat) (c : Nat) (cs : List Nat) :
    medianGo rem idx (c :: cs) =
      if rem - (c : ℚ) ≤ 0 then (idx : ℚ)
      else if rem - (c : ℚ) < 1 then (idx : ℚ) + 0.5
      else medianGo (rem - (c : ℚ)) (idx + 1) cs := rfl

/-- Full characterization of the flat median scan: with a remainder that
stayed `≥ 1` through the first `k` buckets, the scan's answer at bucket `k`
is `idx + k` when the remainder falls to `≤ 0` there, and `idx + k + 0.5`
when it first lands strictly between 0 and 1. -/
theorem take_map_sum_cons (a : Nat) (l : List Nat) (n : Nat) :
    (((a :: l).take (n + 1)).map (fun x : Nat => (x : ℚ))).sum =
      (a : ℚ) + ((l.take n).map (fun x : Nat => (x : ℚ))).sum := by
  rw [List.take_succ_cons, List.map_cons, List.sum_cons]

theorem medianGo_spec : ∀ (cs : List Nat) (rem : ℚ) (idx k : Nat),
    k < cs.length →
    (∀ j, j < k → 1 ≤ rem - ((cs.take (j + 1)).map (fun x : Nat => (x : ℚ))).sum) →
    ((rem - ((cs.take (k + 1)).map (fun x : Nat => (x : ℚ))).sum ≤ 0 →
        medianGo rem idx cs = ((idx + k : Nat) : ℚ)) ∧
     (0 < rem - ((cs.take (k + 1)).map (fun x : Nat => (x : ℚ))).sum →
      rem - ((cs.take (k + 1)).map (fun x : Nat => (x : ℚ))).sum < 1 →
        medianGo rem idx cs = ((idx + k : Nat) : ℚ) + 0.5)) := by
  intro cs
  induction cs with
  | nil =>
    intro rem idx k hk _
    simp at hk
  | cons c cs ih =>
    intro rem idx k hk hprev
    rw [medianGo_cons]
    cases k with
    | zero =>
      have hsum : (((c :: cs).take 1).map (fun x : Nat => (x : ℚ))).sum = (c : ℚ) := by
        rw [take_map_sum_cons]
        simp
      rw [hsum]
      constructor
      · intro hS
        rw [if_pos hS]
        simp
      · intro hS1 hS2
        rw [if_neg (by linarith), if_pos hS2]
        simp
    | succ k' =>
      have h0 : 1 ≤ rem - (c : ℚ) := by
        have h00 := hprev 0 (by omega)
        have hsum : (((c :: cs).take 1).map (fun x : Nat => (x : ℚ))).sum = (c : ℚ) := by
          rw [take_map_sum_cons]
          simp
        rwa [hsum] at h00
      rw [if_neg (by linarith), if_neg (by linarith)]
      have hk' : k' < cs.length := by simpa using hk
      have hprev' : ∀ j, j < k' →
          1 ≤ (rem - (c : ℚ)) - ((cs.take (j + 1)).map (fun x : Nat => (x : ℚ))).sum := by
        intro j hj
        have hj1 := hprev (j + 1) (by omega)
        rw [take_map_sum_cons] at hj1
        linarith
      obtain ⟨ihA, ihB⟩ := ih (rem - (c : ℚ)) (idx + 1) k' hk' hprev'
      have e1 : rem - (((c :: cs).take (k' + 1 + 1)).map (fun x : Nat => (x : ℚ))).sum
          = (rem - (c : ℚ)) - ((cs.take (k' + 1)).map (fun x : Nat => (x : ℚ))).sum := by
        rw [take_map_sum_cons]
        ring
      have eidx : idx + 1 + k' = idx + (k' + 1) := by omega
      constructor
      · intro hS
        rw [e1] at hS
        rw [ihA hS, eidx]
      · intro hS1 hS2
        rw [e1] at hS1 hS2
        rw [ihB hS1 hS2, eidx]

/-- The characterization instantiated at `outputMetrics`'s starting remainder
`totalPixelCount / 2`, phrased with `remAfter`. -/
theorem medianValue_spec (cs : List Nat) (total k : Nat)
    (hk : k < cs.length)
    (hprev : ∀ j, j < k → 1 ≤ remAfter total cs j) :
    (remAfter total cs k ≤ 0 → medianValue cs total = (k : ℚ)) ∧
    (0 < remAfter total cs k → remAfter total cs k < 1 →
      medianValue cs total = (k : ℚ) + 0.5) := by
  have h := medianGo_spec cs ((total : ℚ) / 2) 0 k hk (fun j hj => hprev j hj)
  constructor
  · intro hS
    have := h.1 hS
    simpa [medianValue] using this
  · intro h1 h2
    have := h.2 h1 h2
    simpa [medianValue] using this

/-- C3 (confirmed): the median reported by `outputMetrics` is determined by
scanning the buckets in ascending value order, subtracting each bucket's
count from a remainder initialized to `totalCount/2`; the first bucket `k`
where the remainder reaches `≤ 0` is reported as the median, and if the
remainder instead first lands strictly inside `(0, 1)` the median is
`k + 0.5`.  In particular, for pixel values `{0, 1, ..., 19}` each occurring
exactly once (at either upper limit), the rule yields exactly `9`. -/
theorem C3_median :
    (∀ (pixelCounts : List Nat) (totalPixelCount k : Nat),
      k < pixelCounts.length →
      (∀ j, j < k → 1 ≤ remAfter totalPixelCount pixelCounts j) →
      ((remAfter totalPixelCount pixelCounts k ≤ 0 →
          medianValue pixelCounts totalPixelCount = (k : ℚ)) ∧
       (0 < remAfter totalPixelCount pixelCounts k →
        remAfter totalPixelCount pixelCounts k < 1 →
          medianValue pixelCounts totalPixelCount = (k : ℚ) + 0.5))) ∧
    outputMetricsMedian ((List.range 20).map (fun i => (i, 1))) 10000 = 9 ∧
    outputMetricsMedian ((List.range 20).map (fun i => (i, 1))) 40000 = 9 := by
  refine ⟨fun cs total k hk hp => medianValue_spec cs total k hk hp, ?_, ?_⟩
  · have hpcs : (accumulate ((List.range 20).map (fun i => (i, 1))) 10000).pixelCounts =
        [1, 1, 1, 1, 1, 1, 1, 1, 1, 1, 1, 1, 1, 1, 1, 1, 1, 1, 1, 1,
         0, 0, 0, 0, 0, 0, 0, 0, 0, 0, 0, 0, 0, 0, 0, 0, 0, 0, 0, 0] := by decide
    have htot :
        (accumulate ((List.range 20).map (fun i => (i, 1))) 10000).totalPixelCount = 20 := by
      decide
    show medianValue (accumulate ((List.range 20).map (fun i => (i, 1))) 10000).pixelCounts
      (accumulate ((List.range 20).map (fun i => (i, 1))) 10000).totalPixelCount = 9
    rw [hpcs, htot, medianValue]
    norm_num [medianGo_cons]
  · have hpcs : (accumulate ((List.range 20).map (fun i => (i, 1))) 40000).pixelCounts =
        [1, 1, 1, 1, 1, 1, 1, 1, 1, 1, 1, 1, 1, 1, 1, 1, 1, 1, 1, 1,
         0, 0, 0, 0, 0, 0, 0, 0, 0, 0, 0, 0, 0, 0, 0, 0, 0, 0, 0, 0] := by decide
    have htot :
        (accumulate ((List.range 20).map (fun i => (i, 1))) 40000).totalPixelCount = 20 := by
      decide
    show medianValue (accumulate ((List.range 20).map (fun i => (i, 1))) 40000).pixelCounts
      (accumulate ((List.range 20).map (fun i => (i, 1))) 40000).totalPixelCount = 9
    rw [hpcs, htot, medianValue]
    norm_num [medianGo_cons]

/-- Witness for C3 at a concrete two-bucket table: `2` pixels in bucket 0,
remainder `1 - 2 ≤ 0` at bucket 0, so the median is `0`. -/
theorem C3_median_witness : medianValue [2, 0] 2 = 0 := by
  have h := (C3_median.1 [2, 0] 2 0 (by decide) (fun j hj => absurd hj (by omega))).1
    (by norm_num [remAfter])
  simpa using h

/-! ### C1: SplitMultiBand folder choice, band order and file naming -/

/-- C1 (confirmed): for every multiband tile split, the output subfolder is
`destination/label` when the label is non-empty and
`destination/<tile name without extension>` when it is empty; bands are
processed strictly in ascending native index order within `1..RasterCount`
(every kept band appears); and each retained band `b` is written to
`<tile-base>_B<tag>.tiff` where the tag is the mapped replacement when band
`b` is present in the mapping with a non-empty value, and the 2-digit
zero-padded index when `b` is absent from the mapping. -/
theorem C1_splitMultiBand (tileNameFull destination label : String)
    (bandMapping : Nat → Option String) (rasterCount : Nat) :
    (label ≠ "" →
      (splitMultiBand tileNameFull destination label bandMapping rasterCount).1 =
        pathJoin destination label) ∧
    (label = "" →
      (splitMultiBand tileNameFull destination label bandMapping rasterCount).1 =
        pathJoin destination (trimSuffix tileNameFull (pathExt tileNameFull))) ∧
    ((splitMultiBand tileNameFull destination label bandMapping rasterCount).2.map
      Prod.fst).Pairwise (· < ·) ∧
    (∀ b name,
      (b, name) ∈ (splitMultiBand tileNameFull destination label bandMapping rasterCount).2 →
      1 ≤ b ∧ b ≤ rasterCount ∧
      ((∃ m, bandMapping b = some m ∧ m ≠ "" ∧
          name = trimSuffix tileNameFull (pathExt tileNameFull) ++ "_B" ++ m ++ ".tiff") ∨
       (bandMapping b = none ∧
          name = trimSuffix tileNameFull (pathExt tileNameFull) ++ "_B" ++ pad2 b ++ ".tiff"))) ∧
    (∀ b, 1 ≤ b → b ≤ rasterCount → bandMapping b ≠ some "" →
      ∃ name,
        (b, name) ∈ (splitMultiBand tileNameFull destination label bandMapping rasterCount).2) := by
  have h2 : (splitMultiBand tileNameFull destination label bandMapping rasterCount).2 =
      (List.range rasterCount).filterMap (fun i =>
        match bandMapping (i + 1) with
        | some m =>
            if m = "" then none
            else some (i + 1,
              trimSuffix tileNameFull (pathExt tileNameFull) ++ "_B" ++ m ++ ".tiff")
        | none => some (i + 1,
            trimSuffix tileNameFull (pathExt tileNameFull) ++ "_B" ++ pad2 (i + 1) ++ ".tiff")) :=
    rfl
  have hfst : ∀ (i : Nat) (p : Nat × String),
      (match bandMapping (i + 1) with
        | some m =>
            if m = "" then none
            else some (i + 1,
              trimSuffix tileNameFull (pathExt tileNameFull) ++ "_B" ++ m ++ ".tiff")
        | none => some (i + 1,
            trimSuffix tileNameFull (pathExt tileNameFull) ++ "_B" ++ pad2 (i + 1) ++ ".tiff")) =
          some p → p.1 = i + 1 := by
    intro i p hp
    cases hbm : bandMapping (i + 1) with
    | none =>
      rw [hbm] at hp
      simp only [Option.some.injEq] at hp
      rw [← hp]
    | some m =>
      rw [hbm] at hp
      by_cases hm : m = ""
      · simp [hm] at hp
      · simp only [hm, if_false, Option.some.injEq] at hp
        rw [← hp]
  refine ⟨?_, ?_, ?_, ?_, ?_⟩
  · intro h
    simp [splitMultiBand, h]
  · intro h
    simp [splitMultiBand, h]
  · rw [h2, List.pairwise_map, List.pairwise_filterMap]
    refine (List.pairwise_lt_range rasterCount).imp ?_
    intro a b hab p hp q hq
    rw [hfst a p hp, hfst b q hq]
    omega
  · intro b name hmem
    rw [h2, List.mem_filterMap] at hmem
    obtain ⟨i, hirange, hfi⟩ := hmem
    have hb : b = i + 1 := by
      have := hfst i (b, name) hfi
      simpa using this
    rw [List.mem_range] at hirange
    subst hb
    refine ⟨by omega, by omega, ?_⟩
    cases hbm : bandMapping (i + 1) with
    | none =>
      rw [hbm] at hfi
      simp only [Option.some.injEq, Prod.mk.injEq] at hfi
      exact Or.inr ⟨rfl, hfi.2.symm⟩
    | some m =>
      rw [hbm] at hfi
      by_cases hm : m = ""
      · simp [hm] at hfi
      · simp only [hm, if_false, Option.some.injEq, Prod.mk.injEq] at hfi
        exact Or.inl ⟨m, rfl, hm, hfi.2.symm⟩
  · intro b hb1 hb2 hbne
    have hi : b - 1 + 1 = b := by omega
    cases hbm : bandMapping b with
    | none =>
      refine ⟨trimSuffix tileNameFull (pathExt tileNameFull) ++ "_B" ++ pad2 b ++ ".tiff", ?_⟩
      rw [h2, List.mem_filterMap]
      refine ⟨b - 1, by rw [List.mem_range]; omega, ?_⟩
      rw [hi, hbm]
    | some m =>
      have hm : m ≠ "" := by
        intro hcon
        exact hbne (by rw [hbm, hcon])
      refine ⟨trimSuffix tileNameFull (pathExt tileNameFull) ++ "_B" ++ m ++ ".tiff", ?_⟩
      rw [h2, List.mem_filterMap]
      refine ⟨b - 1, by rw [List.mem_range]; omega, ?_⟩
      rw [hi, hbm]
      simp [hm]

/-- Witness for C1 at a concrete tile, label and mapping. -/
theorem C1_splitMultiBand_witness :
    (splitMultiBand "T1.tiff" "dest" "lab" (fun _ => none) 1).1 = pathJoin "dest" "lab" :=
  (C1_splitMultiBand "T1.tiff" "dest" "lab" (fun _ => none) 1).1 (by decide)

end BigEarth
